import Mathlib

/-!
Verification development for the lattixiq-phoenix utility scripts:
`scripts/explode_json.py` (the splitter) and
`scripts/enrich-knowledge-content.py` (the enricher).

The Python scripts are shallowly embedded: JSON values become an inductive
type, Python dicts become association lists built with insert-or-replace
(mirroring CPython dict semantics: unique keys, insertion order, in-place
value replacement), and the file system and the external classification tool
become explicit oracles threaded through the run.
-/

/-- A JSON value as produced by Python's `json.load` / `json.loads`.
Integers are exact; floats are carried as their source lexeme (no IEEE
arithmetic is needed by any property considered here). -/
inductive JVal where
  | jnull : JVal
  | jbool : Bool → JVal
  | jint : Int → JVal
  | jfloat : String → JVal
  | jstr : String → JVal
  | jarr : List JVal → JVal
  | jobj : List (String × JVal) → JVal

/-- A Python dict holding JSON data: an association list in insertion order.
Dicts produced by the embedded parser have pairwise-distinct keys. -/
abbrev JDict := List (String × JVal)

/-- Python `d[k]` / `d.get(k)`: first entry with the given key (entries built
by `dictInsert` have unique keys, so first match is the only match). -/
def dictLookup (d : JDict) (k : String) : Option JVal :=
  (d.find? (fun p => p.1 == k)).map (fun p => p.2)

/-- Python `k in d` for a dict. -/
def dictHasKey (d : JDict) (k : String) : Bool :=
  d.any (fun p => p.1 == k)

/-- Python `d[k] = v`: replace the value in place if the key exists
(keeping its position), otherwise append the new entry. -/
def dictInsert (d : JDict) (k : String) (v : JVal) : JDict :=
  if dictHasKey d k then
    d.map (fun p => if p.1 == k then (k, v) else p)
  else
    d ++ [(k, v)]

/-- One entry of `d` as `d.update(r)` leaves it: the value is replaced when
`r` has the key, the position is kept. -/
def updEntry (r : JDict) (p : String × JVal) : String × JVal :=
  match dictLookup r p.1 with
  | some v => (p.1, v)
  | none => p

/-- Python `d.update(r)`: every key of `r` is set in `d` (existing keys keep
their position with the new value, new keys are appended in `r`-order). -/
def dictUpdate (d r : JDict) : JDict :=
  d.map (updEntry r) ++ r.filter (fun p => !dictHasKey d p.1)

/-- Python repr of a string: quote choice as CPython does it, with escapes
for the backslash, the chosen quote, and common control characters; other
characters are kept literal (a simplification never evaluated by the
properties below, which only coerce scalars). -/
def pyReprString (s : String) : String :=
  let sq : Char := Char.ofNat 39
  let dq : Char := Char.ofNat 34
  let q : Char := if s.contains sq && !(s.contains dq) then dq else sq
  let esc : Char → String := fun c =>
    if c = '\\' then "\\\\"
    else if c = q then "\\" ++ q.toString
    else if c = '\n' then "\\n"
    else if c = '\r' then "\\r"
    else if c = '\t' then "\\t"
    else c.toString
  q.toString ++ String.join (s.toList.map esc) ++ q.toString

mutual

/-- Python `repr` of a JSON value, as `str` applies it inside lists/dicts. -/
def pyRepr : JVal → String
  | .jnull => "None"
  | .jbool true => "True"
  | .jbool false => "False"
  | .jint n => toString n
  | .jfloat raw => raw
  | .jstr s => pyReprString s
  | .jarr xs => "[" ++ pyReprJoin xs ++ "]"
  | .jobj kvs => "\x7b" ++ pyReprJoinKV kvs ++ "\x7d"

/-- Comma-joined reprs of list elements. -/
def pyReprJoin : List JVal → String
  | [] => ""
  | [v] => pyRepr v
  | v :: w :: rest => pyRepr v ++ ", " ++ pyReprJoin (w :: rest)

/-- Comma-joined `key: value` reprs of dict entries. -/
def pyReprJoinKV : List (String × JVal) → String
  | [] => ""
  | [(k, v)] => pyReprString k ++ ": " ++ pyRepr v
  | (k, v) :: e :: rest =>
    pyReprString k ++ ": " ++ pyRepr v ++ ", " ++ pyReprJoinKV (e :: rest)

end

/-- Python `str` of a JSON value: identity on strings, `repr` otherwise
(None/True/False/numbers print as their repr). -/
def pyStr : JVal → String
  | .jstr s => s
  | .jnull => "None"
  | .jbool true => "True"
  | .jbool false => "False"
  | .jint n => toString n
  | .jfloat raw => raw
  | .jarr xs => pyRepr (.jarr xs)
  | .jobj kvs => pyRepr (.jobj kvs)

/-- Characters the splitter's filename sanitizer replaces: the regex
character class of `explode_json.py` line 30. -/
def isFsSpecial (c : Char) : Bool :=
  c = '\\' || c = '/' || c = ':' || c = Char.ofNat 34 || c = '*' ||
  c = '?' || c = '<' || c = '>' || c = '|'

/-- The sanitizer pass: each maximal run of special characters collapses to
a single underscore (the regex has a one-or-more quantifier). The flag says
whether the previous character was part of such a run. -/
def sanitizeAux : Bool → List Char → List Char
  | _, [] => []
  | inRun, c :: cs =>
    if isFsSpecial c then
      (if inRun then [] else ['_']) ++ sanitizeAux true cs
    else
      c :: sanitizeAux false cs

/-- `re.sub` of the unsafe-character class with an underscore. -/
def sanitizeName (s : String) : String :=
  String.mk (sanitizeAux false s.toList)

/-- The splitter's loop body for one array element (`explode_json.py` lines
24-33): an object lacking the key field is skipped with a diagnostic; an
object having it is written under `sanitize(str(value)) + ".json"`. On a
non-dict element Python's `field not in obj` membership test or the
`obj[field]` subscript raises TypeError, aborting the script: modelled as
`Except.error` (for a string element, membership is a substring test; for a
list element it is list membership, where a string only equals a string). -/
def elemAction (field : String) : JVal → Except Unit (Option (String × JVal))
  | .jobj kvs =>
    match dictLookup kvs field with
    | some v => .ok (some (sanitizeName (pyStr v) ++ ".json", .jobj kvs))
    | none => .ok none
  | .jstr s =>
    if field.toList <:+: s.toList then .error () else .ok none
  | .jarr xs =>
    if xs.any (fun x => match x with | .jstr t => t == field | _ => false) then
      .error ()
    else .ok none
  | _ => .error ()

/-- All file writes the splitter performs on an array, in loop order. -/
def explodeWrites (field : String) : List JVal → Except Unit (List (String × JVal))
  | [] => .ok []
  | obj :: rest =>
    match elemAction field obj with
    | .error e => .error e
    | .ok none => explodeWrites field rest
    | .ok (some w) =>
      match explodeWrites field rest with
      | .error e => .error e
      | .ok ws => .ok (w :: ws)

/-- Write one file into a directory state: an existing name is overwritten
in place, a new name is appended. -/
def fsWrite (fs : List (String × JVal)) (name : String) (v : JVal) : List (String × JVal) :=
  if fs.any (fun p => p.1 == name) then
    fs.map (fun p => if p.1 == name then (name, v) else p)
  else
    fs ++ [(name, v)]

/-- Directory contents after the splitter runs on `data`, starting from an
empty output directory. -/
def splitFs (field : String) (data : List JVal) : Except Unit (List (String × JVal)) :=
  (explodeWrites field data).map (fun ws => ws.foldl (fun fs w => fsWrite fs w.1 w.2) [])

/-- The multiset of JSON objects found in all files the splitter wrote
(`none` when the script aborted with a TypeError). -/
def splitCollect (field : String) (data : List JVal) : Option (Multiset JVal) :=
  match splitFs field data with
  | .error _ => none
  | .ok fs => some (fs.map (fun p => p.2) : List JVal)

/-- The opening brace character. -/
def lbrace : Char := Char.ofNat 123

/-- The closing brace character. -/
def rbrace : Char := Char.ofNat 125

/-- The double-quote character. -/
def dquoteCh : Char := Char.ofNat 34

/-- JSON whitespace as Python's scanner skips it. -/
def skipWs : List Char → List Char
  | [] => []
  | c :: cs => if c = ' ' || c = '\t' || c = '\n' || c = '\r' then skipWs cs else c :: cs

/-- Value of one hexadecimal digit. -/
def hexVal (c : Char) : Option Nat :=
  if '0' ≤ c ∧ c ≤ '9' then some (c.toNat - 48)
  else if 'a' ≤ c ∧ c ≤ 'f' then some (c.toNat - 87)
  else if 'A' ≤ c ∧ c ≤ 'F' then some (c.toNat - 55)
  else none

/-- Rest of a JSON string literal after the opening quote, with the JSON
escape sequences; bare control characters are rejected as in Python's
strict mode. Surrogate-pair joining is not modelled (never evaluated by
the properties below). -/
def parseStringRest (acc : List Char) : List Char → Option (String × List Char)
  | [] => none
  | c :: rest =>
    if c = dquoteCh then some (String.mk acc.reverse, rest)
    else if c = '\\' then
      match rest with
      | [] => none
      | e :: rest2 =>
        if e = dquoteCh then parseStringRest (dquoteCh :: acc) rest2
        else if e = '\\' then parseStringRest ('\\' :: acc) rest2
        else if e = '/' then parseStringRest ('/' :: acc) rest2
        else if e = 'b' then parseStringRest (Char.ofNat 8 :: acc) rest2
        else if e = 'f' then parseStringRest (Char.ofNat 12 :: acc) rest2
        else if e = 'n' then parseStringRest ('\n' :: acc) rest2
        else if e = 'r' then parseStringRest ('\r' :: acc) rest2
        else if e = 't' then parseStringRest ('\t' :: acc) rest2
        else if e = 'u' then
          match rest2 with
          | h1 :: h2 :: h3 :: h4 :: rest3 =>
            match hexVal h1, hexVal h2, hexVal h3, hexVal h4 with
            | some a, some b, some c2, some d =>
              parseStringRest (Char.ofNat (((a * 16 + b) * 16 + c2) * 16 + d) :: acc) rest3
            | _, _, _, _ => none
          | _ => none
        else none
    else if c.toNat < 32 then none
    else parseStringRest (c :: acc) rest

/-- Decimal digits to a natural number. -/
def digitsToNat (ds : List Char) : Nat :=
  ds.foldl (fun a c => a * 10 + (c.toNat - 48)) 0

/-- A JSON number as Python's scanner regex matches it: an optional minus,
an integer part without leading zeros, then optional fraction and exponent
groups that only match when complete. An integer lexeme yields `jint`; a
fraction or exponent yields `jfloat` carrying the lexeme. -/
def parseNumber (s : List Char) : Option (JVal × List Char) :=
  let (neg, s1) := match s with
    | '-' :: t => (true, t)
    | _ => (false, s)
  match s1 with
  | [] => none
  | c :: cs =>
    if !c.isDigit then none
    else
      let (intDs, s2) := if c = '0' then ([c], cs) else s1.span Char.isDigit
      let (fracDs, s3) := match s2 with
        | '.' :: t =>
          let (ds, r) := t.span Char.isDigit
          if ds.isEmpty then (([] : List Char), s2) else ('.' :: ds, r)
        | _ => ([], s2)
      let (expDs, s4) := match s3 with
        | e :: t =>
          if e = 'e' || e = 'E' then
            let (sgn, t2) := match t with
              | '+' :: u => ((['+'] : List Char), u)
              | '-' :: u => (['-'], u)
              | _ => ([], t)
            let (ds, r) := t2.span Char.isDigit
            if ds.isEmpty then (([] : List Char), s3) else (e :: (sgn ++ ds), r)
          else ([], s3)
        | [] => ([], s3)
      if fracDs.isEmpty && expDs.isEmpty then
        let n : Int := Int.ofNat (digitsToNat intDs)
        some (.jint (if neg then -n else n), s2)
      else
        some (.jfloat (String.mk ((if neg then ['-'] else []) ++ intDs ++ fracDs ++ expDs)), s4)

mutual

/-- One JSON value from the front of the input, as Python's `json.loads`
scanner reads it (including the NaN and Infinity constants Python accepts
by default). The fuel only bounds recursion depth; `parseJson` supplies
more than any input can consume. -/
def parseVal : Nat → List Char → Option (JVal × List Char)
  | 0, _ => none
  | fuel + 1, s =>
    match skipWs s with
    | [] => none
    | c :: cs =>
      if c = 'n' then
        match cs with
        | 'u' :: 'l' :: 'l' :: rest => some (.jnull, rest)
        | _ => none
      else if c = 't' then
        match cs with
        | 'r' :: 'u' :: 'e' :: rest => some (.jbool true, rest)
        | _ => none
      else if c = 'f' then
        match cs with
        | 'a' :: 'l' :: 's' :: 'e' :: rest => some (.jbool false, rest)
        | _ => none
      else if c = 'N' then
        match cs with
        | 'a' :: 'N' :: rest => some (.jfloat "NaN", rest)
        | _ => none
      else if c = 'I' then
        match cs with
        | 'n' :: 'f' :: 'i' :: 'n' :: 'i' :: 't' :: 'y' :: rest =>
          some (.jfloat "Infinity", rest)
        | _ => none
      else if c = '-' then
        match cs with
        | 'I' :: 'n' :: 'f' :: 'i' :: 'n' :: 'i' :: 't' :: 'y' :: rest =>
          some (.jfloat "-Infinity", rest)
        | _ => parseNumber (c :: cs)
      else if c = dquoteCh then
        match parseStringRest [] cs with
        | some (str, rest) => some (.jstr str, rest)
        | none => none
      else if c = '[' then
        match skipWs cs with
        | ']' :: rest => some (.jarr [], rest)
        | _ => parseArrItems fuel cs []
      else if c = lbrace then
        match skipWs cs with
        | d :: rest =>
          if d = rbrace then some (.jobj [], rest)
          else parseObjItems fuel cs []
        | [] => none
      else if c.isDigit then parseNumber (c :: cs)
      else none

/-- Elements of a non-empty JSON array after the opening bracket. -/
def parseArrItems : Nat → List Char → List JVal → Option (JVal × List Char)
  | 0, _, _ => none
  | fuel + 1, s, acc =>
    match parseVal fuel s with
    | none => none
    | some (v, rest) =>
      match skipWs rest with
      | ',' :: rest2 => parseArrItems fuel rest2 (v :: acc)
      | ']' :: rest2 => some (.jarr (v :: acc).reverse, rest2)
      | _ => none

/-- Entries of a non-empty JSON object after the opening brace; duplicate
keys overwrite in place as in a Python dict. -/
def parseObjItems : Nat → List Char → JDict → Option (JVal × List Char)
  | 0, _, _ => none
  | fuel + 1, s, acc =>
    match skipWs s with
    | [] => none
    | c :: cs =>
      if c = dquoteCh then
        match parseStringRest [] cs with
        | none => none
        | some (k, rest) =>
          match skipWs rest with
          | ':' :: rest2 =>
            match parseVal fuel rest2 with
            | none => none
            | some (v, rest3) =>
              match skipWs rest3 with
              | [] => none
              | ',' :: rest4 => parseObjItems fuel rest4 (dictInsert acc k v)
              | d :: rest4 =>
                if d = rbrace then some (.jobj (dictInsert acc k v), rest4)
                else none
          | _ => none
      else none

end

/-- Python `json.loads`: one JSON value covering the whole input up to
surrounding whitespace. -/
def parseJson (s : List Char) : Option JVal :=
  match parseVal (2 * s.length + 4) s with
  | some (v, rest) => if (skipWs rest).isEmpty then some v else none
  | none => none

/-- The enricher's response extraction (`_call_claude_code` lines 152-163):
take the substring from the first opening brace through the last closing
brace of the (stripped) tool output and run `json.loads` on it; if there is
no opening brace, or no closing brace after it, or the substring is not
valid JSON, the result is None. -/
def braceSpan (s : List Char) : List Char :=
  ((s.dropWhile (fun c => c ≠ lbrace)).reverse.dropWhile (fun c => c ≠ rbrace)).reverse

/-- The extraction itself: None when the brace-delimited substring is empty
(no opening brace, or no closing brace after the first opening one),
otherwise the `json.loads` of that substring. -/
def extractJson (s : List Char) : Option JVal :=
  if (braceSpan s).isEmpty then none else parseJson (braceSpan s)

/-- Python `str.strip` restricted to ASCII whitespace. -/
def pyStrip (s : List Char) : List Char :=
  ((s.dropWhile Char.isWhitespace).reverse.dropWhile Char.isWhitespace).reverse

/-- The parse stage of `_call_claude_code` applied to the tool's stdout. -/
def parseClaudeStdout (s : List Char) : Option JVal :=
  extractJson (pyStrip s)

/-- Scan for the closing brace matching an opening brace already consumed,
accumulating the scanned characters (in reverse). -/
def balancedFrom : Nat → List Char → List Char → Option (List Char)
  | _, _, [] => none
  | depth, acc, c :: cs =>
    if c = lbrace then balancedFrom (depth + 1) (c :: acc) cs
    else if c = rbrace then
      if depth = 1 then some (c :: acc).reverse
      else balancedFrom (depth - 1) (c :: acc) cs
    else balancedFrom depth (c :: acc) cs

/-- Modelled from the spec: `parse the first balanced JSON object found in
its output`, read as the substring from the first opening brace to its
matching closing brace. This follows the spec's words, for comparison with
the code's `extractJson`. -/
def firstBalancedObj (s : List Char) : Option (List Char) :=
  match s.dropWhile (fun c => c ≠ lbrace) with
  | [] => none
  | c :: cs => balancedFrom 1 [c] cs

/-- The three classification fields the enricher fills in. -/
def expectedFields : List String :=
  ["target_persona", "startup_phase", "problem_category"]

/-- The fixed enumeration of valid values for each target field
(`_validate_claude_response` lines 182-190). -/
def validValues (field : String) : List String :=
  if field = "target_persona" then
    ["founder", "executive", "investor", "product_manager"]
  else if field = "startup_phase" then
    ["ideation", "seed", "growth", "scale-up", "crisis"]
  else if field = "problem_category" then
    ["pivot", "hiring", "fundraising", "co-founder_conflict",
     "product-market_fit", "go-to-market", "team_and_culture",
     "operations", "competitive_strategy", "pricing", "risk_management"]
  else []

/-- `_validate_claude_response`: each expected field must be present, be a
list, and contain only members of the field's valid-value set (a non-string
element never equals a member of a set of strings, so it is rejected). Keys
of the response other than the three expected ones are not examined. -/
def validateResponse (resp : JDict) : Bool :=
  expectedFields.all (fun field =>
    match dictLookup resp field with
    | some (.jarr xs) =>
      xs.all (fun x => match x with
        | .jstr s => (validValues field).contains s
        | _ => false)
    | some _ => false
    | none => false)

/-- Observable outcome of `_enrich_file`: the returned Bool, the rewritten
file contents when a write happens, and whether the external tool was
invoked. -/
structure EnrichOutcome where
  success : Bool
  newContent : Option JDict
  calledClaude : Bool

/-- `_enrich_file` on a successfully loaded record, with the external
tool's parsed response supplied as an oracle (`none` models a tool error,
timeout, or unparsable output). `newContent = none` means the file is not
rewritten. -/
def enrichFile (content : JDict) (claudeResp : Option JDict) : EnrichOutcome :=
  if expectedFields.all (fun f => dictHasKey content f) then
    ⟨true, none, false⟩
  else
    match claudeResp with
    | none => ⟨false, none, true⟩
    | some resp =>
      if validateResponse resp then ⟨true, some (dictUpdate content resp), true⟩
      else ⟨false, none, true⟩

/-- `_enrich_file` including the file load: an unreadable or unparsable
file raises, the exception is caught, and the call fails with no external
invocation and no write. -/
def enrichFileLoaded (content : Option JDict) (claudeResp : Option JDict) : EnrichOutcome :=
  match content with
  | none => ⟨false, none, false⟩
  | some c => enrichFile c claudeResp

/-- `set(x)` over a JSON value as `_load_progress` applies it, restricted
to the members that can ever equal a filename string: a list of hashables
keeps its strings, a string yields its characters as one-character strings,
a dict yields its keys; a list containing a list or dict, or a non-iterable,
raises TypeError (`none`). Hashable non-string members can sit in the set
but never compare equal to a filename, so they are dropped. -/
def setOfJVal : JVal → Option (List String)
  | .jarr xs =>
    if xs.all (fun x => match x with | .jarr _ => false | .jobj _ => false | _ => true) then
      some ((xs.filterMap (fun x => match x with | .jstr s => some s | _ => none)).dedup)
    else none
  | .jstr s => some ((s.toList.map (fun c => String.mk [c])).dedup)
  | .jobj d => some ((d.map (fun p => p.1)).dedup)
  | _ => none

/-- `_load_progress` on the raw text of an existing progress file: any
exception while reading, parsing, or building the set is caught with a
warning and leaves the processed set empty. -/
def loadProgress (raw : List Char) : List String :=
  match parseJson raw with
  | none => []
  | some (.jobj d) =>
    match dictLookup d "processed_files" with
    | none => []
    | some v => (setOfJVal v).getD []
  | some _ => []

/-- The condition of the progress log file when the enricher starts. -/
inductive LogFile where
  | absent : LogFile
  | unreadable : LogFile
  | stored : List Char → LogFile

/-- The processed set right after construction (`__init__` calling
`_load_progress`): an absent file starts fresh, and a file that cannot be
read also only logs a warning and starts fresh. -/
def initProcessed : LogFile → List String
  | .absent => []
  | .unreadable => []
  | .stored raw => loadProgress raw

/-- Whether a string ends with the given suffix (the fnmatch test of the
glob pattern `*.json`), computed over the character lists. -/
def strEndsWith (s suf : String) : Bool :=
  if suf.toList.length ≤ s.toList.length then
    (s.toList.drop (s.toList.length - suf.toList.length)) == suf.toList
  else false

/-- `_get_json_files`: the JSON files of the directory listing (glob
`*.json`, in listing order) whose names are not in the processed set. -/
def getJsonFiles (listing : List String) (processed : List String) : List String :=
  (listing.filter (fun n => strEndsWith n ".json")).filter
    (fun n => !processed.contains n)

/-- `_save_progress`: the JSON document written to the progress log; `now`
is the `time.time()` float carried as its printed form. -/
def saveProgressJson (processed : List String) (now : String) : JVal :=
  .jobj [("processed_files", .jarr (processed.map .jstr)),
         ("last_updated", .jfloat now),
         ("total_processed", .jint processed.length)]

/-- Adding a filename to the processed set. -/
def addName (s : List String) (n : String) : List String :=
  if s.contains n then s else s ++ [n]

/-- Trace of one `enrich_all_files` run: the evolving processed set, every
file opened, every file for which the external tool was invoked, and every
progress document written. -/
structure RunState where
  processed : List String
  opened : List String
  claudeSent : List String
  savedLogs : List JVal
  nSaves : Nat

/-- One iteration of `enrich_all_files` on pending file `n`: the file is
opened and loaded (`fileOracle`), the tool consulted when needed
(`respOracle`); on success the name joins the processed set and the
progress log is immediately rewritten, stamped by `timeOracle`. -/
def enrichOneStep (fileOracle : String → Option JDict)
    (respOracle : String → Option JDict) (timeOracle : Nat → String)
    (st : RunState) (n : String) : RunState :=
  let out := enrichFileLoaded (fileOracle n) (respOracle n)
  let st1 : RunState :=
    { st with
      opened := st.opened ++ [n]
      claudeSent := st.claudeSent ++ (if out.calledClaude then [n] else []) }
  if out.success then
    let proc := addName st1.processed n
    { st1 with
      processed := proc
      savedLogs := st1.savedLogs ++ [saveProgressJson proc (timeOracle st1.nSaves)]
      nSaves := st1.nSaves + 1 }
  else st1

/-- A whole `enrich_all_files` run over a directory listing, starting from
the processed set loaded at construction. -/
def enrichRun (listing : List String) (processedInit : List String)
    (fileOracle : String → Option JDict) (respOracle : String → Option JDict)
    (timeOracle : Nat → String) : RunState :=
  (getJsonFiles listing processedInit).foldl
    (enrichOneStep fileOracle respOracle timeOracle)
    ⟨processedInit, [], [], [], 0⟩

/-- The ordered key list of a saved progress document. -/
def logKeys : JVal → Option (List String)
  | .jobj d => some (d.map (fun p => p.1))
  | _ => none

/-- The filenames listed under `processed_files` of a progress document. -/
def listedFiles : JVal → Option (List String)
  | .jobj d =>
    match dictLookup d "processed_files" with
    | some (.jarr xs) =>
      some (xs.filterMap (fun x => match x with | .jstr s => some s | _ => none))
    | _ => none
  | _ => none

/-- The `total_processed` count of a progress document. -/
def totalListed : JVal → Option Int
  | .jobj d =>
    match dictLookup d "total_processed" with
    | some (.jint n) => some n
    | _ => none
  | _ => none

/-- Whether `last_updated` holds a JSON number. -/
def lastUpdatedIsNumber : JVal → Bool
  | .jobj d =>
    match dictLookup d "last_updated" with
    | some (.jint _) => true
    | some (.jfloat _) => true
    | _ => false
  | _ => false


/-!
Helper lemmas about the dict operations.
-/

theorem dictLookup_nil (k : String) : dictLookup [] k = none := rfl

theorem dictLookup_cons (p : String × JVal) (d : JDict) (k : String) :
    dictLookup (p :: d) k = if p.1 == k then some p.2 else dictLookup d k := by
  unfold dictLookup
  simp only [List.find?]
  cases hpk : (p.1 == k) <;> simp

theorem dictHasKey_cons (p : String × JVal) (d : JDict) (k : String) :
    dictHasKey (p :: d) k = (p.1 == k || dictHasKey d k) := by
  simp [dictHasKey]

theorem updEntry_fst (r : JDict) (p : String × JVal) : (updEntry r p).1 = p.1 := by
  unfold updEntry
  cases dictLookup r p.1 <;> rfl

theorem updEntry_snd_or (r : JDict) (p : String × JVal) :
    some (updEntry r p).2 = (dictLookup r p.1).or (some p.2) := by
  unfold updEntry
  cases h : dictLookup r p.1 <;> simp

theorem dictHasKey_iff_isSome (d : JDict) (k : String) :
    dictHasKey d k = true ↔ (dictLookup d k).isSome = true := by
  induction d with
  | nil => simp [dictHasKey, dictLookup]
  | cons p d ih =>
    rw [dictHasKey_cons, dictLookup_cons]
    cases hpk : (p.1 == k) <;> simp [ih]

theorem dictLookup_append (l₁ l₂ : JDict) (k : String) :
    dictLookup (l₁ ++ l₂) k = (dictLookup l₁ k).or (dictLookup l₂ k) := by
  induction l₁ with
  | nil => simp [dictLookup_nil]
  | cons p l ih =>
    rw [List.cons_append, dictLookup_cons, dictLookup_cons]
    cases hpk : (p.1 == k) <;> simp [ih]

theorem dictLookup_map_updEntry (d r : JDict) (k : String) :
    dictLookup (d.map (updEntry r)) k =
      match dictLookup d k with
      | some v => (dictLookup r k).or (some v)
      | none => none := by
  induction d with
  | nil => simp [dictLookup_nil]
  | cons p d ih =>
    rw [List.map_cons, dictLookup_cons, dictLookup_cons, updEntry_fst]
    cases hpk : (p.1 == k)
    · simpa [hpk] using ih
    · have hk : p.1 = k := by simpa using hpk
      subst hk
      simp only [beq_self_eq_true, if_true]
      simpa using updEntry_snd_or r p

theorem dictLookup_filter_hasKey (d r : JDict) (k : String) :
    dictLookup (r.filter (fun p => !dictHasKey d p.1)) k =
      if dictHasKey d k then none else dictLookup r k := by
  induction r with
  | nil => simp [dictLookup_nil]
  | cons p r ih =>
    rw [List.filter_cons, dictLookup_cons]
    cases hpk : (p.1 == k)
    · cases hpd : dictHasKey d p.1
      · simpa [hpd, dictLookup_cons, hpk] using ih
      · simpa [hpd, hpk] using ih
    · have hk : p.1 = k := by simpa using hpk
      subst hk
      cases hpd : dictHasKey d p.1
      · simp [hpd, dictLookup_cons]
      · simpa [hpd] using ih

theorem dictUpdate_lookup (d r : JDict) (k : String) :
    dictLookup (dictUpdate d r) k = (dictLookup r k).or (dictLookup d k) := by
  unfold dictUpdate
  rw [dictLookup_append, dictLookup_map_updEntry, dictLookup_filter_hasKey]
  cases hd : dictHasKey d k
  · have h1 : (dictLookup d k).isSome = false := by
      cases hl : dictLookup d k
      · rfl
      · exact absurd ((dictHasKey_iff_isSome d k).mpr (by simp [hl])) (by simp [hd])
    cases hl : dictLookup d k
    · simp
    · rw [hl] at h1; simp at h1
  · have h1 := (dictHasKey_iff_isSome d k).mp hd
    cases hl : dictLookup d k
    · rw [hl] at h1; simp at h1
    · simp

theorem dictUpdate_hasKey_left (d r : JDict) (k : String)
    (h : dictHasKey d k = true) : dictHasKey (dictUpdate d r) k = true := by
  rw [dictHasKey_iff_isSome] at h ⊢
  rw [dictUpdate_lookup]
  cases hl : dictLookup r k
  · simpa using h
  · simp

/-!
The splitter round-trip (claim C1).
-/

/-- The output filename the splitter derives for an object that has the
key field (empty for the elements that never reach the write). -/
def derivedName (field : String) : JVal → String
  | .jobj kvs =>
    match dictLookup kvs field with
    | some v => sanitizeName (pyStr v) ++ ".json"
    | none => ""
  | _ => ""

theorem explodeWrites_of_objects (field : String) (data : List JVal)
    (hobj : ∀ o ∈ data, ∃ kvs, o = JVal.jobj kvs ∧ (dictLookup kvs field).isSome = true) :
    explodeWrites field data = .ok (data.map (fun o => (derivedName field o, o))) := by
  induction data with
  | nil => rfl
  | cons o rest ih =>
    obtain ⟨kvs, rfl, hsome⟩ := hobj o (by simp)
    obtain ⟨v, hv⟩ := Option.isSome_iff_exists.mp hsome
    have helem : elemAction field (JVal.jobj kvs) =
        .ok (some (sanitizeName (pyStr v) ++ ".json", JVal.jobj kvs)) := by
      simp only [elemAction]
      rw [hv]
    have hd : derivedName field (JVal.jobj kvs) = sanitizeName (pyStr v) ++ ".json" := by
      simp only [derivedName]
      rw [hv]
    rw [List.map_cons, hd]
    unfold explodeWrites
    rw [helem, ih (fun o ho => hobj o (by simp [ho]))]

theorem fsWrite_foldl_nodup (ws : List (String × JVal)) :
    ∀ fs : List (String × JVal),
      (ws.map (fun w => w.1)).Nodup →
      (∀ n ∈ ws.map (fun w => w.1), fs.any (fun p => p.1 == n) = false) →
      ws.foldl (fun fs w => fsWrite fs w.1 w.2) fs = fs ++ ws := by
  induction ws with
  | nil => intro fs _ _; simp
  | cons w rest ih =>
    intro fs hnodup hfresh
    rw [List.foldl_cons]
    rw [show fsWrite fs w.1 w.2 = fs ++ [(w.1, w.2)] by
      unfold fsWrite
      rw [hfresh w.1 (by simp)]
      simp]
    rw [List.map_cons, List.nodup_cons] at hnodup
    rw [ih (fs ++ [(w.1, w.2)]) hnodup.2]
    · simp
    · intro n hn
      rw [List.any_append]
      have h1 : fs.any (fun p => p.1 == n) = false := hfresh n (by simp [hn])
      have h2 : w.1 ≠ n := by
        intro he
        exact hnodup.1 (he ▸ hn)
      simp [h1, h2]

/-- Claim C1 as stated is violated twice by the code: an element lacking
the key field is skipped (here the output directory stays empty while the
input held one object), and two elements whose key values sanitize to the
same filename overwrite each other (here the directory ends with one file
while the input held two distinct objects). -/
theorem c1_counterexample :
    (splitCollect "knowledge_piece_name" [JVal.jobj []] ≠
      some (([JVal.jobj []] : List JVal) : Multiset JVal)) ∧
    (splitCollect "knowledge_piece_name"
        [JVal.jobj [("knowledge_piece_name", JVal.jstr "a"), ("x", JVal.jint 1)],
         JVal.jobj [("knowledge_piece_name", JVal.jstr "a"), ("x", JVal.jint 2)]] ≠
      some (([JVal.jobj [("knowledge_piece_name", JVal.jstr "a"), ("x", JVal.jint 1)],
              JVal.jobj [("knowledge_piece_name", JVal.jstr "a"), ("x", JVal.jint 2)]] :
          List JVal) : Multiset JVal)) := by
  constructor
  · intro h
    have h0 : splitCollect "knowledge_piece_name" [JVal.jobj []] =
        some (([] : List JVal) : Multiset JVal) := rfl
    rw [h0] at h
    have h1 := congrArg Multiset.card (Option.some.inj h)
    simp at h1
  · intro h
    have h0 : splitCollect "knowledge_piece_name"
        [JVal.jobj [("knowledge_piece_name", JVal.jstr "a"), ("x", JVal.jint 1)],
         JVal.jobj [("knowledge_piece_name", JVal.jstr "a"), ("x", JVal.jint 2)]] =
        some (([JVal.jobj [("knowledge_piece_name", JVal.jstr "a"), ("x", JVal.jint 2)]] :
          List JVal) : Multiset JVal) := rfl
    rw [h0] at h
    have h1 := congrArg Multiset.card (Option.some.inj h)
    simp at h1

/-- Amended C1: for inputs that parse as a JSON array of objects that all
contain the key field and whose derived filenames are pairwise distinct,
running the splitter and collecting the JSON objects in all files it wrote
yields the original multiset of array elements. (The original claim fails
when an element lacks the field, which skips it, or when two filenames
collide, which overwrites.) -/
theorem c1_amended (field : String) (data : List JVal)
    (hobj : ∀ o ∈ data, ∃ kvs, o = JVal.jobj kvs ∧ (dictLookup kvs field).isSome = true)
    (hnodup : (data.map (derivedName field)).Nodup) :
    splitCollect field data = some ((data : List JVal) : Multiset JVal) := by
  have hw := explodeWrites_of_objects field data hobj
  have hkeys : (data.map (fun o => (derivedName field o, o))).map (fun w => w.1) =
      data.map (derivedName field) := by
    rw [List.map_map]
    rfl
  have hfold := fsWrite_foldl_nodup (data.map (fun o => (derivedName field o, o))) []
    (by rw [hkeys]; exact hnodup) (by intro n _; rfl)
  have hcollect : splitCollect field data =
      some ((((data.map (fun o => (derivedName field o, o))).foldl
        (fun fs w => fsWrite fs w.1 w.2) []).map (fun p => p.2) : List JVal) :
          Multiset JVal) := by
    unfold splitCollect splitFs
    rw [hw]
    rfl
  rw [hcollect, hfold, List.nil_append, List.map_map]
  rw [show ((fun p : String × JVal => p.2) ∘ fun o => (derivedName field o, o)) =
    id from rfl]
  rw [List.map_id]

/-- Witness for the amended C1 at a concrete two-object array with the key
field present and distinct derived filenames. -/
theorem c1_amended_witness :
    splitCollect "k" [JVal.jobj [("k", JVal.jstr "a")], JVal.jobj [("k", JVal.jint 2)]] =
      some (([JVal.jobj [("k", JVal.jstr "a")], JVal.jobj [("k", JVal.jint 2)]] :
        List JVal) : Multiset JVal) :=
  c1_amended "k" _
    (by
      intro o ho
      rcases List.mem_cons.mp ho with rfl | ho2
      · exact ⟨[("k", JVal.jstr "a")], rfl, rfl⟩
      · rcases List.mem_cons.mp ho2 with rfl | h3
        · exact ⟨[("k", JVal.jint 2)], rfl, rfl⟩
        · exact absurd h3 (List.not_mem_nil _))
    (by decide)

/-!
Response extraction (claim C2).
-/

theorem dropWhile_append_all (p : Char → Bool) (l₁ l₂ : List Char)
    (h : ∀ c ∈ l₁, p c = true) :
    (l₁ ++ l₂).dropWhile p = l₂.dropWhile p := by
  induction l₁ with
  | nil => rfl
  | cons a l ih =>
    rw [List.cons_append, List.dropWhile_cons_of_pos (h a (by simp))]
    exact ih (fun c hc => h c (by simp [hc]))

theorem braceSpan_embed (pre mid post : List Char)
    (hpre : ∀ c ∈ pre, c ≠ lbrace) (hpost : ∀ c ∈ post, c ≠ rbrace) :
    braceSpan (pre ++ (lbrace :: (mid ++ [rbrace])) ++ post) =
      lbrace :: (mid ++ [rbrace]) := by
  unfold braceSpan
  rw [List.append_assoc,
    dropWhile_append_all _ pre _ (fun c hc => by simpa using hpre c hc)]
  rw [show ((lbrace :: (mid ++ [rbrace])) ++ post : List Char) =
    lbrace :: (mid ++ [rbrace] ++ post) from rfl]
  rw [List.dropWhile_cons_of_neg (by simp)]
  rw [show (lbrace :: (mid ++ [rbrace] ++ post) : List Char).reverse =
    post.reverse ++ (rbrace :: (mid.reverse ++ [lbrace])) by simp]
  rw [dropWhile_append_all _ post.reverse _ (fun c hc => by
    simp only [List.mem_reverse] at hc
    simpa using hpost c hc)]
  rw [List.dropWhile_cons_of_neg (by simp)]
  simp

/-- The tool output used to refute claim C2: it contains two balanced JSON
objects with text around them. -/
def c2Demo : List Char :=
  "Sure: \x7b\"a\": 1\x7d and \x7b\"b\": 2\x7d done".toList

/-- Claim C2 fails on the code: this output contains a first balanced JSON
object, which parses on its own, yet the response parser returns None. The
code does not extract the first balanced object: it takes the substring
from the first opening brace to the LAST closing brace, which here spans
both objects and is not valid JSON. -/
theorem c2_counterexample :
    firstBalancedObj c2Demo = some ("\x7b\"a\": 1\x7d".toList) ∧
    parseJson ("\x7b\"a\": 1\x7d".toList) = some (JVal.jobj [("a", JVal.jint 1)]) ∧
    parseClaudeStdout c2Demo = none ∧
    extractJson c2Demo = none :=
  ⟨rfl, rfl, rfl, rfl⟩

/-- Amended C2: the parser runs `json.loads` on the substring from the
first opening brace through the last closing brace of the output and
returns None when that substring is absent or not valid JSON. In
particular, when the output is one parsable JSON object preceded by text
containing no opening brace and followed by text containing no closing
brace, that object is returned. -/
theorem c2_amended (pre mid post : List Char) (v : JVal)
    (hpre : ∀ c ∈ pre, c ≠ lbrace)
    (hpost : ∀ c ∈ post, c ≠ rbrace)
    (hparse : parseJson (lbrace :: (mid ++ [rbrace])) = some v) :
    extractJson (pre ++ (lbrace :: (mid ++ [rbrace])) ++ post) = some v := by
  unfold extractJson
  rw [braceSpan_embed pre mid post hpre hpost]
  simpa using hparse

/-- Witness for the amended C2 at a concrete embedded object. -/
theorem c2_amended_witness :
    extractJson ("Answer: ".toList ++ (lbrace :: ("\"a\": 1".toList ++ [rbrace])) ++
        " ok".toList) =
      some (JVal.jobj [("a", JVal.jint 1)]) :=
  c2_amended _ _ _ _ (by decide) (by decide) rfl

/-!
Validation and enrichment of one file (claims C3, C4, C9, C10).
-/

theorem validateResponse_false_of_bad (resp : JDict)
    (hbad : ∃ f ∈ expectedFields,
      dictLookup resp f = none ∨
      (∃ v, dictLookup resp f = some v ∧ ∀ xs, v ≠ JVal.jarr xs) ∨
      (∃ xs x, dictLookup resp f = some (JVal.jarr xs) ∧ x ∈ xs ∧
        ∀ s : String, x = JVal.jstr s → (validValues f).contains s = false)) :
    validateResponse resp = false := by
  obtain ⟨f, hf, hcase⟩ := hbad
  cases h : validateResponse resp with
  | false => rfl
  | true =>
    exfalso
    unfold validateResponse at h
    have hP := List.all_eq_true.mp h f hf
    rcases hcase with hnone | ⟨v, hv, hnotarr⟩ | ⟨xs, x, hxs, hx, hbadval⟩
    · rw [hnone] at hP
      simp at hP
    · rw [hv] at hP
      cases v with
      | jarr xs => exact absurd rfl (hnotarr xs)
      | jnull => simp at hP
      | jbool b => simp at hP
      | jint n => simp at hP
      | jfloat r => simp at hP
      | jstr s => simp at hP
      | jobj d => simp at hP
    · rw [hxs] at hP
      dsimp only at hP
      have hx2 := List.all_eq_true.mp hP x hx
      cases x with
      | jstr s =>
        dsimp only at hx2
        rw [hbadval s rfl] at hx2
        simp at hx2
      | jnull => simp at hx2
      | jbool b => simp at hx2
      | jint n => simp at hx2
      | jfloat r => simp at hx2
      | jarr ys => simp at hx2
      | jobj d => simp at hx2

/-- C3: when the record still lacks one of the target fields (the only way
the response is consulted), a response missing an expected field, or whose
expected field is not a list, or with a list element outside the field's
enumeration, makes `_enrich_file` return failure; the record file is not
rewritten, since the write only happens after validation succeeds. -/
theorem c3_invalid_response_rejected (content resp : JDict)
    (hmiss : expectedFields.all (fun f => dictHasKey content f) = false)
    (hbad : ∃ f ∈ expectedFields,
      dictLookup resp f = none ∨
      (∃ v, dictLookup resp f = some v ∧ ∀ xs, v ≠ JVal.jarr xs) ∨
      (∃ xs x, dictLookup resp f = some (JVal.jarr xs) ∧ x ∈ xs ∧
        ∀ s : String, x = JVal.jstr s → (validValues f).contains s = false)) :
    enrichFile content (some resp) = ⟨false, none, true⟩ := by
  unfold enrichFile
  rw [hmiss]
  dsimp only
  rw [validateResponse_false_of_bad resp hbad]
  rfl

/-- Witness for C3: a record lacking the target fields with a response
missing all of them. -/
theorem c3_witness :
    enrichFile [("knowledge_piece_name", JVal.jstr "K")] (some []) =
      ⟨false, none, true⟩ :=
  c3_invalid_response_rejected _ _ rfl
    ⟨"target_persona", by decide, Or.inl rfl⟩

/-- C4: a record that already contains all three target fields makes
`_enrich_file` return success immediately: the external tool is never
invoked and the file is not rewritten, whatever the tool would answer. -/
theorem c4_already_enriched (content : JDict) (resp : Option JDict)
    (hall : expectedFields.all (fun f => dictHasKey content f) = true) :
    enrichFile content resp = ⟨true, none, false⟩ := by
  unfold enrichFile
  rw [hall]
  rfl

/-- Witness for C4 at a record holding the three target fields. -/
theorem c4_witness :
    enrichFile
      [("target_persona", JVal.jarr []), ("startup_phase", JVal.jarr []),
       ("problem_category", JVal.jarr []), ("definition", JVal.jstr "d")]
      (some [("target_persona", JVal.jarr [JVal.jstr "wizard"])]) =
      ⟨true, none, false⟩ :=
  c4_already_enriched _ _ rfl

/-- The response mapping each target field to an empty list. -/
def emptyListsResp : JDict :=
  [("target_persona", JVal.jarr []), ("startup_phase", JVal.jarr []),
   ("problem_category", JVal.jarr [])]

/-- C9: a response with three empty lists passes validation, and a record
enriched with it is reported as a success while all three target fields
end up as empty sequences. -/
theorem c9_empty_lists_pass :
    validateResponse emptyListsResp = true ∧
    enrichFile [("knowledge_piece_name", JVal.jstr "K2")] (some emptyListsResp) =
      ⟨true, some (dictUpdate [("knowledge_piece_name", JVal.jstr "K2")] emptyListsResp),
       true⟩ ∧
    dictLookup (dictUpdate [("knowledge_piece_name", JVal.jstr "K2")] emptyListsResp)
      "target_persona" = some (JVal.jarr []) ∧
    dictLookup (dictUpdate [("knowledge_piece_name", JVal.jstr "K2")] emptyListsResp)
      "startup_phase" = some (JVal.jarr []) ∧
    dictLookup (dictUpdate [("knowledge_piece_name", JVal.jstr "K2")] emptyListsResp)
      "problem_category" = some (JVal.jarr []) :=
  ⟨rfl, rfl, rfl, rfl, rfl⟩

/-- C10: an element whose key field is present with any value, string or
not, is never skipped: the value is coerced with Python `str`, the result
sanitized, and the element written under the derived filename. -/
theorem c10_nonstring_key_written (field : String) (kvs : JDict) (v : JVal)
    (h : dictLookup kvs field = some v) :
    elemAction field (JVal.jobj kvs) =
      .ok (some (sanitizeName (pyStr v) ++ ".json", JVal.jobj kvs)) := by
  simp only [elemAction]
  rw [h]

/-- Witness for C10: an integer key value is written under `42.json`, a
boolean under `True.json`, a null under `None.json`. -/
theorem c10_witness :
    elemAction "k" (JVal.jobj [("k", JVal.jint 42)]) =
      .ok (some ("42.json", JVal.jobj [("k", JVal.jint 42)])) ∧
    elemAction "k" (JVal.jobj [("k", JVal.jbool true)]) =
      .ok (some ("True.json", JVal.jobj [("k", JVal.jbool true)])) ∧
    elemAction "k" (JVal.jobj [("k", JVal.jnull)]) =
      .ok (some ("None.json", JVal.jobj [("k", JVal.jnull)])) :=
  ⟨c10_nonstring_key_written "k" _ (JVal.jint 42) rfl,
   c10_nonstring_key_written "k" _ (JVal.jbool true) rfl,
   c10_nonstring_key_written "k" _ JVal.jnull rfl⟩

/-!
The frame of a successful enrichment (claim C6).
-/

/-- The record used to refute claim C6. -/
def c6Record : JDict := [("knowledge_piece_name", JVal.jstr "K")]

/-- A response carrying the three valid target fields plus an extra key
colliding with an existing record field. -/
def c6HijackResp : JDict :=
  [("target_persona", JVal.jarr [JVal.jstr "founder"]),
   ("startup_phase", JVal.jarr [JVal.jstr "seed"]),
   ("problem_category", JVal.jarr [JVal.jstr "pivot"]),
   ("knowledge_piece_name", JVal.jstr "HIJACKED")]

/-- Claim C6 fails on the code: validation examines only the three expected
fields, and `content.update(response)` merges every response key, so a
response with an extra key passes validation and overwrites a record key
other than the three target fields. Here enrichment succeeds yet
`knowledge_piece_name` changes from `K` to `HIJACKED`. -/
theorem c6_counterexample :
    (enrichFile c6Record (some c6HijackResp)).success = true ∧
    dictLookup c6Record "knowledge_piece_name" = some (JVal.jstr "K") ∧
    dictLookup ((enrichFile c6Record (some c6HijackResp)).newContent.getD [])
      "knowledge_piece_name" = some (JVal.jstr "HIJACKED") ∧
    JVal.jstr "HIJACKED" ≠ JVal.jstr "K" :=
  ⟨rfl, rfl, rfl, by
    intro h
    have h2 : ("HIJACKED" : String) = "K" := congrArg pyStr h
    exact absurd h2 (by decide)⟩

theorem validateResponse_fields_present (resp : JDict)
    (h : validateResponse resp = true) :
    ∀ f ∈ expectedFields, (dictLookup resp f).isSome = true := by
  intro f hf
  unfold validateResponse at h
  have hP := List.all_eq_true.mp h f hf
  cases hl : dictLookup resp f
  · rw [hl] at hP
    simp at hP
  · rfl

/-- Amended C6: after a successful enrichment that consulted the tool,
every key present before is still present; every key NOT present in the
validated response keeps its original value; every key of the response,
which always includes the three target fields, carries the response's
value afterwards. The original claim, that only the three target fields
can change, fails because validation does not reject extra response keys
and `dict.update` merges all of them. -/
theorem c6_amended (content resp newC : JDict)
    (h : enrichFile content (some resp) = ⟨true, some newC, true⟩) :
    (∀ k, dictHasKey content k = true → dictHasKey newC k = true) ∧
    (∀ k, dictHasKey resp k = false → dictLookup newC k = dictLookup content k) ∧
    (∀ k, dictHasKey resp k = true → dictLookup newC k = dictLookup resp k) ∧
    (∀ f ∈ expectedFields, (dictLookup newC f).isSome = true) := by
  have hval : validateResponse resp = true ∧ newC = dictUpdate content resp := by
    unfold enrichFile at h
    cases hall : expectedFields.all (fun f => dictHasKey content f)
    · rw [hall] at h
      dsimp only at h
      cases hv : validateResponse resp
      · rw [hv] at h
        simp at h
      · rw [hv] at h
        simp at h
        exact ⟨rfl, h.symm⟩
    · rw [hall] at h
      simp at h
  obtain ⟨hv, rfl⟩ := hval
  refine ⟨?_, ?_, ?_, ?_⟩
  · intro k hk
    exact dictUpdate_hasKey_left content resp k hk
  · intro k hk
    rw [dictUpdate_lookup]
    have hnone : dictLookup resp k = none := by
      cases hl : dictLookup resp k
      · rfl
      · exact absurd ((dictHasKey_iff_isSome resp k).mpr (by simp [hl]))
          (by simp [hk])
    rw [hnone]
    simp
  · intro k hk
    rw [dictUpdate_lookup]
    have h1 := (dictHasKey_iff_isSome resp k).mp hk
    cases hl : dictLookup resp k
    · rw [hl] at h1
      simp at h1
    · simp [hl]
  · intro f hf
    have hp := validateResponse_fields_present resp hv f hf
    rw [dictUpdate_lookup]
    cases hl : dictLookup resp f
    · rw [hl] at hp
      simp at hp
    · simp [hl]

/-- Witness for the amended C6: with a well-behaved response carrying no
extra keys, the untouched record field keeps its value. -/
theorem c6_amended_witness :
    dictLookup (dictUpdate c6Record emptyListsResp) "knowledge_piece_name" =
      dictLookup c6Record "knowledge_piece_name" :=
  (c6_amended c6Record emptyListsResp (dictUpdate c6Record emptyListsResp) rfl).2.1
    "knowledge_piece_name" rfl

/-!
The enrichment run: resumability and the progress log (claims C5, C7, C8).
-/

theorem enrichOneStep_opened (fo ro : String → Option JDict) (tg : Nat → String)
    (st : RunState) (n : String) :
    (enrichOneStep fo ro tg st n).opened = st.opened ++ [n] := by
  unfold enrichOneStep
  dsimp only
  split <;> rfl

theorem enrichOneStep_claudeSent (fo ro : String → Option JDict) (tg : Nat → String)
    (st : RunState) (n : String) :
    (enrichOneStep fo ro tg st n).claudeSent =
      st.claudeSent ++
        (if (enrichFileLoaded (fo n) (ro n)).calledClaude then [n] else []) := by
  unfold enrichOneStep
  dsimp only
  split <;> rfl

theorem enrichOneStep_savedLogs (fo ro : String → Option JDict) (tg : Nat → String)
    (st : RunState) (n : String) :
    (enrichOneStep fo ro tg st n).savedLogs = st.savedLogs ∨
    (enrichOneStep fo ro tg st n).savedLogs =
      st.savedLogs ++ [saveProgressJson (addName st.processed n) (tg st.nSaves)] := by
  unfold enrichOneStep
  dsimp only
  split
  · right
    rfl
  · left
    rfl

theorem enrichRun_opened_aux (fo ro : String → Option JDict) (tg : Nat → String)
    (ns : List String) :
    ∀ st : RunState, (ns.foldl (enrichOneStep fo ro tg) st).opened = st.opened ++ ns := by
  induction ns with
  | nil =>
    intro st
    simp
  | cons n rest ih =>
    intro st
    rw [List.foldl_cons, ih, enrichOneStep_opened]
    simp

theorem enrichRun_claudeSent_aux (fo ro : String → Option JDict) (tg : Nat → String)
    (ns : List String) :
    ∀ st : RunState, (ns.foldl (enrichOneStep fo ro tg) st).claudeSent =
      st.claudeSent ++
        ns.filter (fun n => (enrichFileLoaded (fo n) (ro n)).calledClaude) := by
  induction ns with
  | nil =>
    intro st
    simp
  | cons n rest ih =>
    intro st
    rw [List.foldl_cons, ih, enrichOneStep_claudeSent, List.filter_cons]
    cases hc : (enrichFileLoaded (fo n) (ro n)).calledClaude <;> simp [hc]

theorem enrichRun_savedLogs_shape (fo ro : String → Option JDict) (tg : Nat → String)
    (ns : List String) :
    ∀ st : RunState, (∀ v ∈ st.savedLogs, ∃ ps t, v = saveProgressJson ps t) →
      ∀ v ∈ (ns.foldl (enrichOneStep fo ro tg) st).savedLogs,
        ∃ ps t, v = saveProgressJson ps t := by
  induction ns with
  | nil =>
    intro st h
    exact h
  | cons n rest ih =>
    intro st h
    rw [List.foldl_cons]
    refine ih _ ?_
    rcases enrichOneStep_savedLogs fo ro tg st n with heq | heq <;> rw [heq]
    · exact h
    · intro v hv
      rcases List.mem_append.mp hv with h1 | h2
      · exact h v h1
      · exact ⟨_, _, by simpa using h2⟩

/-- C5: a run never opens, and never sends to the external tool, a file
whose name is listed in the starting processed set; and the pending list is
exactly the directory's JSON files whose names are not in that set. -/
theorem c5_log_never_reprocessed (listing processedInit : List String)
    (fo ro : String → Option JDict) (tg : Nat → String) :
    (∀ n ∈ (enrichRun listing processedInit fo ro tg).opened, n ∉ processedInit) ∧
    (∀ n ∈ (enrichRun listing processedInit fo ro tg).claudeSent, n ∉ processedInit) ∧
    (∀ n, n ∈ getJsonFiles listing processedInit ↔
      (n ∈ listing ∧ strEndsWith n ".json" = true ∧ n ∉ processedInit)) := by
  have hmem : ∀ n, n ∈ getJsonFiles listing processedInit ↔
      (n ∈ listing ∧ strEndsWith n ".json" = true ∧ n ∉ processedInit) := by
    intro n
    unfold getJsonFiles
    simp [List.mem_filter, and_assoc]
    tauto
  have hopen : (enrichRun listing processedInit fo ro tg).opened =
      getJsonFiles listing processedInit := by
    unfold enrichRun
    rw [enrichRun_opened_aux]
    simp
  have hsent : (enrichRun listing processedInit fo ro tg).claudeSent =
      (getJsonFiles listing processedInit).filter
        (fun n => (enrichFileLoaded (fo n) (ro n)).calledClaude) := by
    unfold enrichRun
    rw [enrichRun_claudeSent_aux]
    simp
  refine ⟨?_, ?_, hmem⟩
  · intro n hn
    rw [hopen] at hn
    exact ((hmem n).mp hn).2.2
  · intro n hn
    rw [hsent] at hn
    exact ((hmem n).mp (List.mem_of_mem_filter hn)).2.2

/-- Witness for C5 at a concrete directory listing and progress log. -/
theorem c5_witness :
    ("a.json" : String) ∉ (["c.json"] : List String) ∧
    ("a.json" ∈ getJsonFiles ["a.json", "b.txt", "c.json"] ["c.json"] ↔
      ("a.json" ∈ (["a.json", "b.txt", "c.json"] : List String) ∧
        strEndsWith "a.json" ".json" = true ∧
        ("a.json" : String) ∉ (["c.json"] : List String))) :=
  ⟨(c5_log_never_reprocessed ["a.json", "b.txt", "c.json"] ["c.json"]
      (fun _ => none) (fun _ => none) (fun _ => "0")).1 "a.json" (by decide),
   (c5_log_never_reprocessed ["a.json", "b.txt", "c.json"] ["c.json"]
      (fun _ => none) (fun _ => none) (fun _ => "0")).2.2 "a.json"⟩

theorem saveProgressJson_shape (ps : List String) (t : String) :
    logKeys (saveProgressJson ps t) =
      some ["processed_files", "last_updated", "total_processed"] ∧
    lastUpdatedIsNumber (saveProgressJson ps t) = true ∧
    listedFiles (saveProgressJson ps t) = some ps ∧
    totalListed (saveProgressJson ps t) = some (ps.length : Int) := by
  refine ⟨rfl, rfl, ?_, rfl⟩
  show some ((ps.map JVal.jstr).filterMap
    (fun x => match x with | JVal.jstr s => some s | _ => none)) = some ps
  rw [List.filterMap_map]
  congr 1
  show ps.filterMap some = ps
  exact List.filterMap_some ps

/-- C7: every progress document a run writes has exactly the keys
`processed_files`, `last_updated`, `total_processed`; `processed_files` is
the list of the processed set's filenames, `last_updated` is a number, and
`total_processed` equals the number of listed filenames. -/
theorem c7_progress_log_wellformed (listing processedInit : List String)
    (fo ro : String → Option JDict) (tg : Nat → String) :
    ∀ v ∈ (enrichRun listing processedInit fo ro tg).savedLogs,
      logKeys v = some ["processed_files", "last_updated", "total_processed"] ∧
      lastUpdatedIsNumber v = true ∧
      ∃ ns, listedFiles v = some ns ∧ totalListed v = some (ns.length : Int) := by
  intro v hv
  have hshape := enrichRun_savedLogs_shape fo ro tg
    (getJsonFiles listing processedInit) ⟨processedInit, [], [], [], 0⟩
    (by intro w hw; simp at hw) v hv
  obtain ⟨ps, t, rfl⟩ := hshape
  obtain ⟨h1, h2, h3, h4⟩ := saveProgressJson_shape ps t
  exact ⟨h1, h2, ps, h3, h4⟩

/-- A record that already holds the three target fields (used to drive one
successful enrichment in the C7 witness). -/
def allFieldsContent : JDict :=
  [("target_persona", JVal.jarr []), ("startup_phase", JVal.jarr []),
   ("problem_category", JVal.jarr [])]

/-- Witness for C7 at a one-file run that saves the log once. -/
theorem c7_witness :
    logKeys (saveProgressJson ["y.json"] "t0") =
      some ["processed_files", "last_updated", "total_processed"] ∧
    lastUpdatedIsNumber (saveProgressJson ["y.json"] "t0") = true ∧
    ∃ ns, listedFiles (saveProgressJson ["y.json"] "t0") = some ns ∧
      totalListed (saveProgressJson ["y.json"] "t0") = some (ns.length : Int) :=
  c7_progress_log_wellformed ["y.json"] [] (fun _ => some allFieldsContent)
    (fun _ => none) (fun _ => "t0") (saveProgressJson ["y.json"] "t0")
    (List.Mem.head _)

/-- C8: a progress log that exists but cannot be read, or whose contents do
not parse as JSON, does not fail construction: the warning path leaves the
processed set empty, and every JSON file of the directory is pending. -/
theorem c8_corrupt_log_starts_fresh (raw : List Char) (listing : List String)
    (hraw : parseJson raw = none) :
    initProcessed (.stored raw) = [] ∧
    initProcessed .unreadable = [] ∧
    getJsonFiles listing (initProcessed (.stored raw)) =
      listing.filter (fun n => strEndsWith n ".json") := by
  have h0 : initProcessed (.stored raw) = [] := by
    show loadProgress raw = []
    unfold loadProgress
    rw [hraw]
  refine ⟨h0, rfl, ?_⟩
  rw [h0]
  unfold getJsonFiles
  simp

/-- Witness for C8 at a concrete corrupt log. -/
theorem c8_witness :
    initProcessed (.stored "garbage".toList) = [] ∧
    initProcessed .unreadable = [] ∧
    getJsonFiles ["a.json", "b.txt"] (initProcessed (.stored "garbage".toList)) =
      (["a.json", "b.txt"] : List String).filter (fun n => strEndsWith n ".json") :=
  c8_corrupt_log_starts_fresh "garbage".toList ["a.json", "b.txt"] rfl
